import Mathlib

/-!
Verification development for the avocado `varianter_yaml_to_mux` plugin
(`optional_plugins/varianter_yaml_to_mux/avocado_varianter_yaml_to_mux/__init__.py`).

The development shallowly embeds the tag-aware document-to-tree assembler:
the reference-syntax parser, the mapping-vs-structure loader decision, the
tree assembler with its control-tag dispatch and `!using` relocation, and the
multi-source merge orchestrator.  Python strings are modelled as `String`,
with all character-level operations (split, strip, the two regexes) written
out explicitly over `List Char` so that every definition evaluates by kernel
reduction.  Fallible Python code (raised exceptions) is modelled with
`Except Err`.
-/

/-! ## Character-list string primitives (Python `str` operations) -/

/-- Python `s.split(sep)` for a single-character separator: all pieces kept,
including empty ones; splitting the empty string yields `[""]`. -/
def chSplit (sep : Char) : List Char → List (List Char)
  | [] => [[]]
  | c :: rest =>
    let r := chSplit sep rest
    if c = sep then [] :: r
    else match r with
      | [] => [[c]]
      | h :: t => (c :: h) :: t

/-- Does the second list start with the first? (Python `str.startswith`.) -/
def chStarts : List Char → List Char → Bool
  | [], _ => true
  | _, [] => false
  | p :: ps, c :: cs => (p = c) && chStarts ps cs

/-- Python `s.strip(c)` for a single strip character: remove every leading
and trailing occurrence of `c`. -/
def chStrip (c : Char) (cs : List Char) : List Char :=
  ((cs.dropWhile (· = c)).reverse.dropWhile (· = c)).reverse

/-- Python `needle in hay` on strings: substring containment. -/
def chHasSub (needle : List Char) : List Char → Bool
  | [] => needle.isEmpty
  | c :: rest => chStarts needle (c :: rest) || chHasSub needle rest

/-- Substring containment lifted to `String` (Python `in`). -/
def strHasSub (needle hay : String) : Bool :=
  chHasSub needle.data hay.data

/-! ## Data model

Scalar values as they come out of the underlying YAML parser. -/

inductive Scalar where
  | null
  | str (s : String)
  | int (n : Int)
  | bool (b : Bool)
deriving DecidableEq, Repr

/-- The closed set of directive codes.  In the source these are the numeric
constants `YAML_INCLUDE = 100`, `YAML_USING = 101`,
`YAML_REMOVE_NODE = mux.REMOVE_NODE`, `YAML_REMOVE_VALUE = mux.REMOVE_VALUE`,
`YAML_MUX = 102`, `YAML_FILTER_ONLY = 103`, `YAML_FILTER_OUT = 104`; they are
pairwise distinct, so a closed tagged-variant type is a faithful model. -/
inductive Code where
  | inc
  | using
  | removeNode
  | removeValue
  | mux
  | filterOnly
  | filterOut
deriving DecidableEq, Repr

mutual
/-- A constructed YAML object: a scalar, an ordered mapping
(`collections.OrderedDict`), or a `ListOfNodeObjects` marking structure. -/
inductive Obj where
  | scalar (s : Scalar)
  | dict (entries : List (KeyObj × Obj))
  | nodes (items : List NodeItem)

/-- A constructed mapping key: a plain string, or a `mux.Control` object
produced by one of the `!`-tag constructors. -/
inductive KeyObj where
  | str (s : String)
  | ctrl (c : Control)

/-- `mux.Control`: a directive code plus an optional associated value (the
value is set later for `REMOVE_NODE`/`REMOVE_VALUE`). -/
inductive Control where
  | mk (code : Code) (value : Option Obj)

/-- An element of a `ListOfNodeObjects`: either an already-built tree node,
or a `(key, value)` pair (whose key may itself be a `mux.Control`). -/
inductive NodeItem where
  | nd (t : TreeNode)
  | pair (k : KeyObj) (v : Obj)

/-- The external tree node (`mux.MuxTreeNode` / `avocado.core.tree.TreeNode`):
a name, an ordered value-store, an ordered child list, the `multiplex` flag,
the list of deferred `ctrl` directives and the two filter lists.  The
non-owning parent back-reference is determined by the tree shape and is not
modelled. -/
inductive TreeNode where
  | mk (name : String) (value : List (String × Obj)) (children : List TreeNode)
       (multiplex : Bool) (ctrl : List Control)
       (fonly : List String) (fout : List String)
end

def TreeNode.name : TreeNode → String
  | .mk n _ _ _ _ _ _ => n

def TreeNode.value : TreeNode → List (String × Obj)
  | .mk _ v _ _ _ _ _ => v

def TreeNode.children : TreeNode → List TreeNode
  | .mk _ _ c _ _ _ _ => c

def TreeNode.multiplex : TreeNode → Bool
  | .mk _ _ _ m _ _ _ => m

def TreeNode.ctrl : TreeNode → List Control
  | .mk _ _ _ _ c _ _ => c

def TreeNode.fonly : TreeNode → List String
  | .mk _ _ _ _ _ o _ => o

def TreeNode.fout : TreeNode → List String
  | .mk _ _ _ _ _ _ o => o

def Control.code : Control → Code
  | .mk c _ => c

def Control.cvalue : Control → Option Obj
  | .mk _ v => v

/-- Python truthiness of a constructed object (`if not values: ...`). -/
def Obj.falsy : Obj → Bool
  | .scalar .null => true
  | .scalar (.str s) => s = ""
  | .scalar (.int n) => n = 0
  | .scalar (.bool b) => !b
  | .dict l => l.isEmpty
  | .nodes l => l.isEmpty

def Obj.isNodes : Obj → Bool
  | .nodes _ => true
  | _ => false

def Obj.isDict : Obj → Bool
  | .dict _ => true
  | _ => false

def KeyObj.isCtrl : KeyObj → Bool
  | .ctrl _ => true
  | _ => false

/-! ## Tree-node construction and the narrow mutation interface -/

/-- `cls_node(name)`: a fresh empty node. -/
def newNode (name : String) : TreeNode :=
  .mk name [] [] false [] [] []

/-- `cls_node(name, children=[child])`: a fresh node wrapping one child. -/
def wrapNode (name : String) (child : TreeNode) : TreeNode :=
  .mk name [] [child] false [] [] []

def TreeNode.setName : TreeNode → String → TreeNode
  | .mk _ v c m ct o u, n => .mk n v c m ct o u

/-- Modelled from the spec: the external tree type's `add_child` is consumed
through the narrow "child-append" interface (`mux` is not part of the given
sources); the child is appended at the end of the ordered child list. -/
def TreeNode.addChild : TreeNode → TreeNode → TreeNode
  | .mk n v c m ct o u, child => .mk n v (c ++ [child]) m ct o u

/-- `node.value[key] = v` on an ordered mapping: update in place when the key
is present (keeping its position), otherwise append. -/
def odAssign (store : List (String × Obj)) (k : String) (v : Obj) :
    List (String × Obj) :=
  if store.any (fun kv => decide (kv.1 = k)) then
    store.map (fun kv => if kv.1 = k then (k, v) else kv)
  else store ++ [(k, v)]

def TreeNode.addValue : TreeNode → String → Obj → TreeNode
  | .mk n v c m ct o u, k, x => .mk n (odAssign v k x) c m ct o u

def TreeNode.addCtrl : TreeNode → Control → TreeNode
  | .mk n v c m ct o u, d => .mk n v c m (ct ++ [d]) o u

def TreeNode.setMux : TreeNode → Bool → TreeNode
  | .mk n v c _ ct o u, m => .mk n v c m ct o u

def TreeNode.addFilterOnly : TreeNode → String → TreeNode
  | .mk n v c m ct o u, f => .mk n v c m ct (o ++ [f]) u

def TreeNode.addFilterOut : TreeNode → String → TreeNode
  | .mk n v c m ct o u, f => .mk n v c m ct o (u ++ [f])

/-! ## Errors (Python exceptions raised by the assembler) -/

inductive Err where
  | valueError (msg : String)
  | indexError
  | typeError
  | keyError
  | attributeError
  | yamlError (msg : String)
  | ioError (errno : Nat) (msg : String) (filename : String)
deriving DecidableEq, Repr

/-- `str(exc)` for the exceptions the orchestrator can catch. -/
def Err.text : Err → String
  | .valueError m => m
  | .indexError => "string index out of range"
  | .typeError => "type error"
  | .keyError => "key error"
  | .attributeError => "attribute error"
  | .yamlError m => m
  | .ioError _ m _ => m

/-! ## `_normalize_path` (source lines 80-93) -/

/-- `_normalize_path(path)`: `None` for an empty path, otherwise the path
with a trailing `'/'` appended when missing. -/
def normalize_path (path : String) : Option String :=
  if path = "" then none
  else if path.data.getLast? = some '/' then some path
  else some (path ++ "/")

/-! ## `_handle_control_tag_using` (source lines 132-152)

The duplicate check (`if using:`) fires on the relocation accumulated so far;
only then is the new value normalized (`using[0]` / `using[-1]` raise
`IndexError` on `''` / `'/'`).  A non-string value raises on the first
subscript: `TypeError` for scalars, `KeyError` for a mapping (`dict[0]`),
`IndexError` for an empty `ListOfNodeObjects`.  A non-empty
`ListOfNodeObjects` value would be threaded through unchanged (both `==`
comparisons are `False`) and only crash later, in `_apply_using`'s
`using.split`; that delayed `AttributeError` is modelled as an immediate
error here, the construction aborting either way. -/
def handle_control_tag_using (path name usingAcc : String) (value : Obj) :
    Except Err String :=
  if usingAcc ≠ "" then
    .error (.valueError
      ("!using can be used only once per node! (" ++ path ++ ":" ++ name ++ ")"))
  else
    match value with
    | .scalar (.str s) =>
      match s.data with
      | [] => .error .indexError
      | c :: rest =>
        let u := if c = '/' then rest else c :: rest
        match u.getLast? with
        | none => .error .indexError
        | some lastc =>
          .ok (String.mk (if lastc = '/' then u.dropLast else u))
    | .scalar _ => .error .typeError
    | .dict _ => .error .keyError
    | .nodes [] => .error .indexError
    | .nodes (_ :: _) => .error .attributeError

/-! ## `_apply_using` (source lines 155-180) -/

/-- `_apply_using(name, cls_node, using, node)`.  Non-root branch: iterate
the reversed `'/'`-split of `using`, wrapping at each step.  Root branch
(`name == ''`): the source reverses the split list and then pops from its
end, so the popped elements come back in the original split order — the
node is renamed to the first segment, the remaining segments wrap it from
the inside out, and one extra anonymous node wraps the result. -/
def apply_using (name strUsing : String) (node : TreeNode) : TreeNode :=
  if name ≠ "" then
    ((chSplit '/' strUsing.data).map String.mk).reverse.foldl
      (fun nd nm => wrapNode nm nd) node
  else
    match (chSplit '/' strUsing.data).map String.mk with
    | [] => node
    | first :: rest =>
      wrapNode "" (rest.foldl (fun nd nm => wrapNode nm nd) (node.setName first))

/-! ## POSIX path helpers (`os.path`) -/

/-- `os.path.isabs` on POSIX: the path starts with `'/'`. -/
def isabs (p : String) : Bool :=
  chStarts ['/'] p.data

/-- `os.path.dirname` on POSIX: everything up to the last `'/'`, with
trailing slashes stripped unless the head is all slashes. -/
def dirname (p : String) : String :=
  let cs := p.data
  if cs.contains '/' then
    let head := (cs.reverse.dropWhile (· ≠ '/')).reverse
    if head.all (· = '/') then String.mk head
    else String.mk ((head.reverse.dropWhile (· = '/')).reverse)
  else ""

/-- `os.path.join(a, b)` on POSIX for two components. -/
def joinPath (a b : String) : String :=
  if isabs b then b
  else if a = "" || a.data.getLast? = some '/' then a ++ b
  else a ++ "/" ++ b

/-! ## The file-specifier mini-syntax (source lines 47-48 and 295-305) -/

/-- `re.split(r'(?<!\\):', s, 1)`: split at the first `':'` not immediately
preceded by a backslash (a `':'` at position 0 always matches).  Helper:
scan with the previous character at hand. -/
def splitColonAux (prev : Char) (acc : List Char) :
    List Char → Option (List Char × List Char)
  | [] => none
  | c :: rest =>
    if c = ':' && prev ≠ '\\' then some (acc.reverse, rest)
    else splitColonAux c (c :: acc) rest

/-- `__RE_FILE_SPLIT.split(path, 1)`: one or two pieces. -/
def re_file_split (s : String) : List String :=
  match s.data with
  | [] => [s]
  | c :: rest =>
    if c = ':' then ["", String.mk rest]
    else match splitColonAux c [c] rest with
      | none => [s]
      | some (a, b) => [String.mk a, String.mk b]

/-- Is there an unescaped `':'` (one not immediately preceded by `'\\'`)
anywhere in the string?  Independent restatement of what the split regex
matches, used to state the default-namespace property. -/
def hasUnescapedColon (s : String) : Bool :=
  match s.data with
  | [] => false
  | c :: rest => c = ':' || colonAux c rest
where
  colonAux (prev : Char) : List Char → Bool
  | [] => false
  | c :: rest => (c = ':' && prev ≠ '\\') || colonAux c rest

/-- `__RE_FILE_SUBS.sub(':', s)`: replace every `'\\:'` whose backslash is
not itself preceded by a backslash; the scan is left-to-right and
non-overlapping, the look-behind examining the original characters. -/
def subsAux (prev : Char) (l : List Char) : List Char :=
  match l with
  | [] => []
  | c :: rest =>
    if c = '\\' && prev ≠ '\\' then
      match rest with
      | [] => [c]
      | c2 :: rest2 =>
        if c2 = ':' then ':' :: subsAux ':' rest2
        else c :: subsAux c (c2 :: rest2)
    else c :: subsAux c rest

def re_file_subs (s : String) : String :=
  match s.data with
  | [] => s
  | c :: rest =>
    if c = '\\' then
      match rest with
      | ':' :: rest2 => String.mk (':' :: subsAux ':' rest2)
      | _ => String.mk (c :: subsAux c rest)
    else String.mk (c :: subsAux c rest)

/-- The file-name parsing portion of `_create_from_yaml` (source lines
295-305): split `[$using:]$path`; with no unescaped `':'` the namespace is
`["run"]`; otherwise the namespace is the unescaped prefix stripped of
leading/trailing `'/'`, split on `'/'` with empty segments dropped, with
`"run"` prepended when the raw prefix does not start with `'/'`. -/
def parse_file_spec (path : String) : List String × String :=
  match re_file_split path with
  | [p] => (["run"], re_file_subs p)
  | pre :: p :: _ =>
    let nodes := (chSplit '/' (chStrip '/' (re_file_subs pre).data)).map String.mk
    let base := nodes.filter (fun n => decide (n ≠ ""))
    let nsp := if !(chStarts ['/'] pre.data) then "run" :: base else base
    (nsp, re_file_subs p)
  | [] => (["run"], re_file_subs path)

/-! ## `_handle_control_tag` (source lines 96-129)

The `!include` branch re-enters `_create_from_yaml` through the filesystem;
that re-entry is abstracted by two parameters: `fs` (does a file exist) and
`incl` (parse an included specifier into an optional subtree).  The external
tree merge (`node.merge`, owned by the out-of-scope `mux` component) is the
parameter `mer`. -/
def handle_control_tag (incl : String → Except Err (Option TreeNode))
    (fs : String → Bool) (mer : TreeNode → TreeNode → TreeNode)
    (path : String) (node : TreeNode) (c : Control) (v : Obj) :
    Except Err TreeNode :=
  if c.code = .inc then
    match v with
    | .scalar (.str ypath0) =>
      let ypath := if isabs ypath0 then ypath0 else joinPath (dirname path) ypath0
      if !(fs ypath) then
        .error (.valueError
          ("File '" ++ ypath ++ "' included from '" ++ path ++ "' does not exist."))
      else
        match incl ("/:" ++ ypath) with
        | .error e => .error e
        | .ok none => .error .attributeError
        | .ok (some t) => .ok (mer node t)
    | _ => .error .typeError
  else if c.code = .removeNode ∨ c.code = .removeValue then
    .ok (node.addCtrl (.mk c.code (some v)))
  else if c.code = .mux then
    .ok (node.setMux true)
  else if c.code = .filterOnly then
    match v with
    | .scalar (.str s) =>
      match normalize_path s with
      | some nv => .ok (node.addFilterOnly nv)
      | none => .ok node
    | _ => if v.falsy then .ok node else .error .typeError
  else if c.code = .filterOut then
    match v with
    | .scalar (.str s) =>
      match normalize_path s with
      | some nv => .ok (node.addFilterOut nv)
      | none => .ok node
    | _ => if v.falsy then .ok node else .error .typeError
  else
    .ok node

/-! ## The tree assembler (source lines 183-238) -/

mutual
/-- `_tree_node_from_values`: create the `name` node and fill it from the
parsed values; apply the captured relocation at the end.  The source's
`using` parameter is dead (overwritten with `''` before any use) and is
therefore omitted.  A non-falsy scalar in place of values raises when the
source iterates it (`IndexError` for strings, `TypeError` otherwise). -/
def tree_node_from_values (incl : String → Except Err (Option TreeNode))
    (fs : String → Bool) (mer : TreeNode → TreeNode → TreeNode)
    (path name : String) (values : Obj) : Except Err TreeNode :=
  if values.falsy then .ok (newNode name)
  else match values with
  | .dict entries =>
    match node_content_from_dict incl fs mer path (newNode name) "" entries with
    | .error e => .error e
    | .ok (node, u) => .ok (if u ≠ "" then apply_using name u node else node)
  | .nodes items =>
    match node_content_from_node incl fs mer path (newNode name) "" items with
    | .error e => .error e
    | .ok (node, u) => .ok (if u ≠ "" then apply_using name u node else node)
  | .scalar (.str _) => .error .indexError
  | .scalar _ => .error .typeError

/-- `_node_content_from_dict`: fold the ordered mapping's entries into the
node; `!using` threads the relocation accumulator, other control keys
dispatch, nested mappings and `None` become named children, everything else
goes to the value-store. -/
def node_content_from_dict (incl : String → Except Err (Option TreeNode))
    (fs : String → Bool) (mer : TreeNode → TreeNode → TreeNode)
    (path : String) (node : TreeNode) (u : String)
    (entries : List (KeyObj × Obj)) : Except Err (TreeNode × String) :=
  match entries with
  | [] => .ok (node, u)
  | (.ctrl c, v) :: rest =>
    if c.code = .using then
      match handle_control_tag_using path node.name u v with
      | .error e => .error e
      | .ok u2 => node_content_from_dict incl fs mer path node u2 rest
    else
      match handle_control_tag incl fs mer path node c v with
      | .error e => .error e
      | .ok node2 => node_content_from_dict incl fs mer path node2 u rest
  | (.str ks, v) :: rest =>
    match v with
    | .dict _ | .scalar .null =>
      match tree_node_from_values incl fs mer path ks v with
      | .error e => .error e
      | .ok child =>
        node_content_from_dict incl fs mer path (node.addChild child) u rest
    | _ => node_content_from_dict incl fs mer path (node.addValue ks v) u rest

/-- `_node_content_from_node`: fold a `ListOfNodeObjects` into the node;
already-built nodes are appended as children, control pairs dispatch, pairs
with a nested mapping value become named children, and any other pair value
(`None` included — unlike the dict form there is no `is None` check here)
goes to the value-store. -/
def node_content_from_node (incl : String → Except Err (Option TreeNode))
    (fs : String → Bool) (mer : TreeNode → TreeNode → TreeNode)
    (path : String) (node : TreeNode) (u : String)
    (items : List NodeItem) : Except Err (TreeNode × String) :=
  match items with
  | [] => .ok (node, u)
  | .nd t :: rest => node_content_from_node incl fs mer path (node.addChild t) u rest
  | .pair (.ctrl c) v :: rest =>
    if c.code = .using then
      match handle_control_tag_using path node.name u v with
      | .error e => .error e
      | .ok u2 => node_content_from_node incl fs mer path node u2 rest
    else
      match handle_control_tag incl fs mer path node c v with
      | .error e => .error e
      | .ok node2 => node_content_from_node incl fs mer path node2 u rest
  | .pair (.str ks) v :: rest =>
    match v with
    | .dict _ =>
      match tree_node_from_values incl fs mer path ks v with
      | .error e => .error e
      | .ok child =>
        node_content_from_node incl fs mer path (node.addChild child) u rest
    | _ => node_content_from_node incl fs mer path (node.addValue ks v) u rest
end

/-! ## The tag-aware mapping loader (source lines 244-275) -/

/-- `astring.to_text` on a mapping key: identity on strings; for a
`mux.Control` key (reachable only in degenerate documents) the Python text
is the default object repr, which is address-dependent; modelled as a fixed
token. -/
def keyText : KeyObj → String
  | .str s => s
  | .ctrl _ => "<Control object>"

/-- Python `==` on constructed mapping keys: strings compare by value; the
`mux.Control` objects are freshly allocated per tag occurrence and compare
by identity, hence never equal to anything. -/
def keyEqPy : KeyObj → KeyObj → Bool
  | .str a, .str b => a = b
  | _, _ => false

/-- One `OrderedDict` assignment with `mux.Control`-aware key comparison:
an existing equal key keeps its position and object, only the value is
replaced; otherwise the pair is appended. -/
def odAssignK (l : List (KeyObj × Obj)) (k : KeyObj) (v : Obj) :
    List (KeyObj × Obj) :=
  if l.any (fun kv => keyEqPy kv.1 k) then
    l.map (fun kv => if keyEqPy kv.1 k then (kv.1, v) else kv)
  else l ++ [(k, v)]

/-- `collections.OrderedDict(_value)`: fold the raw pair list through
ordered-dict assignment. -/
def odOfPairs (pairs : List (KeyObj × Obj)) : List (KeyObj × Obj) :=
  pairs.foldl (fun acc kv => odAssignK acc kv.1 kv.2) []

/-- The trigger scan of `mapping_to_tree_loader`'s first loop: a
`mux.Control` key or a `ListOfNodeObjects` value sets `looks_like_node`. -/
def looksTrigger (pairs : List (KeyObj × Obj)) : Bool :=
  pairs.any (fun kv => kv.1.isCtrl || kv.2.isNodes)

/-- The second loop of `mapping_to_tree_loader`: build the
`ListOfNodeObjects` — a `ListOfNodeObjects` value becomes a node built by
the assembler, a `None` value becomes a fresh empty node, anything else is
kept as a `(key, value)` pair. -/
def loaderItems (incl : String → Except Err (Option TreeNode))
    (fs : String → Bool) (mer : TreeNode → TreeNode → TreeNode)
    (path : String) : List (KeyObj × Obj) → Except Err (List NodeItem)
  | [] => .ok []
  | (name, values) :: rest =>
    match values with
    | .nodes _ =>
      match tree_node_from_values incl fs mer path (keyText name) values with
      | .error e => .error e
      | .ok t =>
        match loaderItems incl fs mer path rest with
        | .error e => .error e
        | .ok its => .ok (.nd t :: its)
    | .scalar .null =>
      match loaderItems incl fs mer path rest with
      | .error e => .error e
      | .ok its => .ok (.nd (newNode (keyText name)) :: its)
    | _ =>
      match loaderItems incl fs mer path rest with
      | .error e => .error e
      | .ok its => .ok (.pair name values :: its)

/-- `mapping_to_tree_loader`: decide plain-mapping vs structure once per
mapping.  With no trigger (and `looks_like_node` not forced by `!mux`) the
mapping is returned as a plain ordered mapping; otherwise the structural
`ListOfNodeObjects` form is built. -/
def mapping_to_tree_loader (incl : String → Except Err (Option TreeNode))
    (fs : String → Bool) (mer : TreeNode → TreeNode → TreeNode)
    (path : String) (pairs : List (KeyObj × Obj)) (lln : Bool) :
    Except Err Obj :=
  if !(lln || looksTrigger pairs) then .ok (.dict (odOfPairs pairs))
  else
    match loaderItems incl fs mer path pairs with
    | .error e => .error e
    | .ok items => .ok (.nodes items)

/-! ## The multi-source merge orchestrator (source lines 340-379) -/

/-- The `for path in paths` loop of `create_from_yaml` with its exception
translation.  The whole single-file pipeline (`_create_from_yaml`, file IO
included) is abstracted by `parseOne`; `mer` is the external accumulator
merge.  `yaml.YAMLError` and `IndexError` are caught and wrapped into
`IOError(2, "Invalid multiplex file '<path>': <details>", path)`, the known
"mapping values are not allowed in this context" message first gaining the
spacing hint; other exceptions propagate unchanged. -/
def create_from_yaml_loop (parseOne : String → Except Err (Option TreeNode))
    (mer : TreeNode → TreeNode → TreeNode) (acc : TreeNode) :
    List String → Except Err TreeNode
  | [] => .ok acc
  | p :: rest =>
    match parseOne p with
    | .ok none => create_from_yaml_loop parseOne mer acc rest
    | .ok (some t) => create_from_yaml_loop parseOne mer (mer acc t) rest
    | .error (.yamlError m) =>
      let d := if strHasSub "mapping values are not allowed in this context" m
               then m ++ "\nMake sure !tags and colons are separated by a space (eg. !include :)"
               else m
      .error (.ioError 2 ("Invalid multiplex file '" ++ p ++ "': " ++ d) p)
    | .error .indexError =>
      let m := Err.text .indexError
      let d := if strHasSub "mapping values are not allowed in this context" m
               then m ++ "\nMake sure !tags and colons are separated by a space (eg. !include :)"
               else m
      .error (.ioError 2 ("Invalid multiplex file '" ++ p ++ "': " ++ d) p)
    | .error e => .error e

/-- `create_from_yaml(paths)` (non-debug): start from a fresh anonymous
accumulator root and fold the files in order. -/
def create_from_yaml (parseOne : String → Except Err (Option TreeNode))
    (mer : TreeNode → TreeNode → TreeNode) (paths : List String) :
    Except Err TreeNode :=
  create_from_yaml_loop parseOne mer (newNode "") paths


/-! ## Auxiliary definitions used by the verification -/

/-- The concrete inputs used to refute C4 as stated. -/
def c4items : List NodeItem :=
  [.pair (.ctrl (.mk .using none)) (.scalar (.str "//")),
   .pair (.ctrl (.mk .using none)) (.scalar (.str "a"))]

/-- The spacing hint appended by the orchestrator to the known parser
message. -/
def spacingHint : String :=
  "\nMake sure !tags and colons are separated by a space (eg. !include :)"

/-- A mapping entry that stays in the value-store under assembly: a plain
string key with a scalar, non-null value. -/
def plainScalarEntry : KeyObj × Obj → Bool
  | (.str _, .scalar .null) => false
  | (.str _, .scalar _) => true
  | _ => false

/-- The value-store contents corresponding to a list of mapping entries. -/
def stringStore (l : List (KeyObj × Obj)) : List (String × Obj) :=
  l.map (fun kv => (keyText kv.1, kv.2))

/-! ## Supporting lemmas -/

theorem chStarts_append (n b : List Char) : chStarts n (n ++ b) = true := by
  induction n with
  | nil => simp [chStarts]
  | cons c cs ih => simp [chStarts, ih]

theorem chHasSub_cons (n : List Char) (c : Char) (l : List Char)
    (h : chHasSub n l = true) : chHasSub n (c :: l) = true := by
  cases l with
  | nil =>
    simp [chHasSub] at h
    simp [chHasSub, chStarts, h]
  | cons d t =>
    simp [chHasSub] at h ⊢
    tauto

theorem chHasSub_append_left (n a l : List Char)
    (h : chHasSub n l = true) : chHasSub n (a ++ l) = true := by
  induction a with
  | nil => simpa using h
  | cons c cs ih => simpa using chHasSub_cons n c (cs ++ l) ih

theorem chHasSub_self_append (n b : List Char) : chHasSub n (n ++ b) = true := by
  cases n with
  | nil =>
    cases b with
    | nil => rfl
    | cons c t => simp [chHasSub, chStarts]
  | cons c t => simp [chHasSub, chStarts, chStarts_append]

/-- A string occurs as a substring of any enclosing concatenation. -/
theorem strHasSub_sandwich (n a b : String) :
    strHasSub n (a ++ n ++ b) = true := by
  have h1 : chHasSub n.data (n.data ++ b.data) = true := chHasSub_self_append _ _
  have h2 := chHasSub_append_left n.data a.data _ h1
  simpa [strHasSub, String.data_append, List.append_assoc] using h2

theorem splitColonAux_none_of_no_colon (l : List Char) :
    ∀ prev acc, hasUnescapedColon.colonAux prev l = false →
      splitColonAux prev acc l = none := by
  induction l with
  | nil => intro prev acc _; rfl
  | cons c rest ih =>
    intro prev acc h
    unfold hasUnescapedColon.colonAux at h
    rcases Bool.or_eq_false_iff.mp h with ⟨h1, h2⟩
    unfold splitColonAux
    simp only [h1]
    simp only [Bool.false_eq_true, if_false]
    exact ih c _ h2

/-- With no unescaped colon anywhere, the split regex finds nothing and the
whole specifier is the path. -/
theorem re_file_split_single (s : String) (h : hasUnescapedColon s = false) :
    re_file_split s = [s] := by
  unfold re_file_split
  unfold hasUnescapedColon at h
  cases hd : s.data with
  | nil => rfl
  | cons c rest =>
    rw [hd] at h
    rcases Bool.or_eq_false_iff.mp h with ⟨h1, h2⟩
    simp only [decide_eq_false_iff_not] at h1
    simp [h1, splitColonAux_none_of_no_colon rest c [c] h2]

theorem strHasSub_of_parts (n pre post hay : String)
    (hh : hay.data = pre.data ++ n.data ++ post.data) : strHasSub n hay = true := by
  unfold strHasSub
  rw [hh, List.append_assoc]
  exact chHasSub_append_left _ _ _ (chHasSub_self_append _ _)

/-- C10: capturing a `!using` value of `""` or `"/"` indexes the value at
position 0 resp. -1 with no emptiness guard; the total embedding returns an
`IndexError`, and both error branches are reachable. -/
theorem C10_using_empty_value_index_error (path name : String) :
    handle_control_tag_using path name "" (.scalar (.str "")) = .error .indexError ∧
    handle_control_tag_using path name "" (.scalar (.str "/")) = .error .indexError :=
  ⟨rfl, rfl⟩

/-- C1 (actual code behavior at the claimed input): `!using: "a/b"` on an
anonymous root node with store `{x: 1}` renames the node to the first
segment `"a"`, wraps it in `"b"`, then in one anonymous node — the
root-to-leaf chain is `"" → b → a{x: 1}`, with the original content in the
leaf named `"a"`. -/
theorem C1_using_root_actual_chain :
    (∀ (incl : String → Except Err (Option TreeNode)) (fs : String → Bool)
       (mer : TreeNode → TreeNode → TreeNode),
      tree_node_from_values incl fs mer "p" ""
        (.nodes [.pair (.ctrl (.mk .using none)) (.scalar (.str "a/b")),
                 .pair (.str "x") (.scalar (.int 1))]) =
        .ok (.mk "" [] [.mk "b" [] [.mk "a" [("x", .scalar (.int 1))] [] false [] [] []]
              false [] [] []] false [] [] [])) ∧
    apply_using "" "a/b" (.mk "" [("x", .scalar (.int 1))] [] false [] [] []) =
      .mk "" [] [.mk "b" [] [.mk "a" [("x", .scalar (.int 1))] [] false [] [] []]
        false [] [] []] false [] [] [] :=
  ⟨fun _ _ _ => rfl, rfl⟩

/-- C3: `!using: "a/b"` on a non-root node named `n` with store `{x: 1}`
wraps it in the chain `a → b → n{x: 1}` (root to leaf), the original node
preserved as the deepest leaf. -/
theorem C3_using_nonroot_chain (n : String) (h : n ≠ "") :
    apply_using n "a/b" (.mk n [("x", .scalar (.int 1))] [] false [] [] []) =
      .mk "a" [] [.mk "b" [] [.mk n [("x", .scalar (.int 1))] [] false [] [] []]
        false [] [] []] false [] [] [] := by
  unfold apply_using
  rw [if_pos h]
  rfl

theorem C3_using_nonroot_chain_witness :
    apply_using "n" "a/b" (.mk "n" [("x", .scalar (.int 1))] [] false [] [] []) =
      .mk "a" [] [.mk "b" [] [.mk "n" [("x", .scalar (.int 1))] [] false [] [] []]
        false [] [] []] false [] [] [] :=
  C3_using_nonroot_chain "n" (by decide)

/-- C6: a non-absolute `!include` target is resolved against the directory
of the including file; when the resolved target does not exist the dispatch
fails with an error whose message names both the missing file and the
including file, and no subtree is merged (the result is an error, not a
node). -/
theorem C6_include_missing (incl : String → Except Err (Option TreeNode))
    (fs : String → Bool) (mer : TreeNode → TreeNode → TreeNode)
    (path : String) (node : TreeNode) (s : String)
    (hrel : isabs s = false)
    (hmiss : fs (joinPath (dirname path) s) = false) :
    handle_control_tag incl fs mer path node (.mk .inc none) (.scalar (.str s)) =
      .error (.valueError
        ("File '" ++ joinPath (dirname path) s ++ "' included from '" ++ path
          ++ "' does not exist.")) ∧
    strHasSub (joinPath (dirname path) s)
      ("File '" ++ joinPath (dirname path) s ++ "' included from '" ++ path
        ++ "' does not exist.") = true ∧
    strHasSub path
      ("File '" ++ joinPath (dirname path) s ++ "' included from '" ++ path
        ++ "' does not exist.") = true := by
  refine ⟨?_, ?_, ?_⟩
  · simp [handle_control_tag, Control.code, hrel, hmiss]
  · exact strHasSub_of_parts _ "File '"
      ("' included from '" ++ path ++ "' does not exist.") _
      (by simp [String.data_append])
  · exact strHasSub_of_parts _
      ("File '" ++ joinPath (dirname path) s ++ "' included from '")
      "' does not exist." _ (by simp [String.data_append])

theorem C6_include_missing_witness :
    handle_control_tag (fun _ => .ok none) (fun _ => false) (fun a _ => a)
      "/dir/cur.yaml" (newNode "n") (.mk .inc none) (.scalar (.str "other.yaml")) =
      .error (.valueError
        "File '/dir/other.yaml' included from '/dir/cur.yaml' does not exist.") ∧
    strHasSub "/dir/other.yaml"
      "File '/dir/other.yaml' included from '/dir/cur.yaml' does not exist." = true ∧
    strHasSub "/dir/cur.yaml"
      "File '/dir/other.yaml' included from '/dir/cur.yaml' does not exist." = true :=
  C6_include_missing (fun _ => .ok none) (fun _ => false) (fun a _ => a)
    "/dir/cur.yaml" (newNode "n") "other.yaml" rfl rfl

/-- C8: a non-empty `!filter-only` / `!filter-out` path value gains a
trailing `'/'` when missing and the normalized value is appended to the
node's respective filter list; an empty filter value leaves the node (both
filter lists included) unchanged. -/
theorem C8_filter_normalized_append (incl : String → Except Err (Option TreeNode))
    (fs : String → Bool) (mer : TreeNode → TreeNode → TreeNode)
    (path : String) (node : TreeNode) (s : String) (h : s ≠ "") :
    handle_control_tag incl fs mer path node (.mk .filterOnly none) (.scalar (.str s)) =
      .ok (node.addFilterOnly (if s.data.getLast? = some '/' then s else s ++ "/")) ∧
    handle_control_tag incl fs mer path node (.mk .filterOut none) (.scalar (.str s)) =
      .ok (node.addFilterOut (if s.data.getLast? = some '/' then s else s ++ "/")) ∧
    handle_control_tag incl fs mer path node (.mk .filterOnly none) (.scalar (.str "")) =
      .ok node ∧
    handle_control_tag incl fs mer path node (.mk .filterOut none) (.scalar (.str "")) =
      .ok node := by
  by_cases hl : s.data.getLast? = some '/' <;>
    refine ⟨?_, ?_, rfl, rfl⟩ <;>
    simp [handle_control_tag, Control.code, normalize_path, h, hl]

theorem C8_filter_normalized_append_witness :
    handle_control_tag (fun _ => .ok none) (fun _ => false) (fun a _ => a)
      "p" (newNode "n") (.mk .filterOnly none) (.scalar (.str "/x/y")) =
      .ok ((newNode "n").addFilterOnly "/x/y/") ∧
    handle_control_tag (fun _ => .ok none) (fun _ => false) (fun a _ => a)
      "p" (newNode "n") (.mk .filterOut none) (.scalar (.str "/x/y")) =
      .ok ((newNode "n").addFilterOut "/x/y/") ∧
    handle_control_tag (fun _ => .ok none) (fun _ => false) (fun a _ => a)
      "p" (newNode "n") (.mk .filterOnly none) (.scalar (.str "")) = .ok (newNode "n") ∧
    handle_control_tag (fun _ => .ok none) (fun _ => false) (fun a _ => a)
      "p" (newNode "n") (.mk .filterOut none) (.scalar (.str "")) = .ok (newNode "n") :=
  C8_filter_normalized_append (fun _ => .ok none) (fun _ => false) (fun a _ => a)
    "p" (newNode "n") "/x/y" (by decide)

/-- C9: dispatching `!remove_node` / `!remove_value` only records the
directive — with its value set to the target — at the end of the node's
`ctrl` list; name, value-store, child list, multiplex flag and both filter
lists are unchanged, and nothing is deleted. -/
theorem C9_remove_records_only (incl : String → Except Err (Option TreeNode))
    (fs : String → Bool) (mer : TreeNode → TreeNode → TreeNode)
    (path : String) (node : TreeNode) (c : Control) (v : Obj)
    (h : c.code = .removeNode ∨ c.code = .removeValue) :
    handle_control_tag incl fs mer path node c v =
      .ok (node.addCtrl (.mk c.code (some v))) ∧
    (node.addCtrl (.mk c.code (some v))).name = node.name ∧
    (node.addCtrl (.mk c.code (some v))).value = node.value ∧
    (node.addCtrl (.mk c.code (some v))).children = node.children ∧
    (node.addCtrl (.mk c.code (some v))).multiplex = node.multiplex ∧
    (node.addCtrl (.mk c.code (some v))).fonly = node.fonly ∧
    (node.addCtrl (.mk c.code (some v))).fout = node.fout ∧
    (node.addCtrl (.mk c.code (some v))).ctrl = node.ctrl ++ [.mk c.code (some v)] := by
  obtain ⟨code, cv⟩ := c
  obtain ⟨nm, val, ch, m, ct, fo, fu⟩ := node
  simp [Control.code] at h
  rcases h with h | h <;> subst h <;>
    exact ⟨rfl, rfl, rfl, rfl, rfl, rfl, rfl, rfl⟩

theorem C9_remove_records_only_witness :
    handle_control_tag (fun _ => .ok none) (fun _ => false) (fun a _ => a)
      "p" (.mk "n" [("x", .scalar (.int 1))] [] false [] [] [])
      (.mk .removeNode none) (.scalar (.str "tgt")) =
      .ok ((.mk "n" [("x", .scalar (.int 1))] [] false [] [] [] : TreeNode).addCtrl
        (.mk .removeNode (some (.scalar (.str "tgt"))))) ∧
    ((.mk "n" [("x", .scalar (.int 1))] [] false [] [] [] : TreeNode).addCtrl
        (.mk .removeNode (some (.scalar (.str "tgt"))))).name = "n" ∧
    ((.mk "n" [("x", .scalar (.int 1))] [] false [] [] [] : TreeNode).addCtrl
        (.mk .removeNode (some (.scalar (.str "tgt"))))).ctrl =
      [.mk .removeNode (some (.scalar (.str "tgt")))] := by
  have h := C9_remove_records_only (fun _ => .ok none) (fun _ => false) (fun a _ => a)
    "p" (.mk "n" [("x", .scalar (.int 1))] [] false [] [] [])
    (.mk .removeNode none) (.scalar (.str "tgt")) (Or.inl rfl)
  exact ⟨h.1, h.2.1, h.2.2.2.2.2.2.2⟩

/-- C2 fails as stated: for `"a:/x"` the file path `"/x"` is absolute, so the
claim predicts namespace `["a"]`, but the code tests the prefix (not the
path) and produces `["run", "a"]`. -/
theorem C2_counterexample :
    parse_file_spec "a:/x" = (["run", "a"], "/x") ∧ isabs "/x" = true ∧
    (["run", "a"] : List String) ≠ ["a"] :=
  ⟨rfl, rfl, by decide⟩

/-- C2 (amended): with no unescaped `':'` the namespace is `["run"]`; when a
prefix exists the namespace is the unescaped prefix stripped of
leading/trailing `'/'` and split on `'/'` with empty segments dropped, with
`"run"` prepended if and only if the raw prefix does not start with `'/'`. -/
theorem C2_amended_namespace (s pre p : String) :
    (hasUnescapedColon s = false → parse_file_spec s = (["run"], re_file_subs s)) ∧
    (re_file_split s = [pre, p] →
      parse_file_spec s =
        ((if chStarts ['/'] pre.data then
            ((chSplit '/' (chStrip '/' (re_file_subs pre).data)).map String.mk).filter
              (fun n => decide (n ≠ ""))
          else
            "run" :: ((chSplit '/' (chStrip '/' (re_file_subs pre).data)).map String.mk).filter
              (fun n => decide (n ≠ ""))),
         re_file_subs p)) := by
  constructor
  · intro h
    unfold parse_file_spec
    rw [re_file_split_single s h]
  · intro h
    unfold parse_file_spec
    rw [h]
    by_cases hp : chStarts ['/'] pre.data <;> simp [hp]

theorem C2_amended_namespace_witness :
    parse_file_spec "plain" = (["run"], "plain") ∧
    parse_file_spec "/n:f" = (["n"], "f") :=
  ⟨(C2_amended_namespace "plain" "" "").1 (by decide),
   (C2_amended_namespace "/n:f" "/n" "f").2 (by decide)⟩

theorem getLast?_decomp (l : List Char) (a : Char) (h : l.getLast? = some a) :
    l = l.dropLast ++ [a] := by
  induction l with
  | nil => simp at h
  | cons c t ih =>
    cases t with
    | nil =>
      simp [List.getLast?] at h
      simp [h]
    | cons d t' =>
      have h2 : (d :: t').getLast? = some a := by
        rw [← h]
        rfl
      have := ih h2
      calc c :: d :: t' = c :: ((d :: t').dropLast ++ [a]) := by rw [← this]
        _ = (c :: d :: t').dropLast ++ [a] := by simp [List.dropLast]

/-- C4 fails as stated: a first `!using: "//"` captures the empty relocation,
so a second `!using` on the same node is accepted instead of raising the
duplicate-relocation error. -/
theorem C4_counterexample :
    node_content_from_node (fun _ => .ok none) (fun _ => false) (fun a _ => a)
      "p" (newNode "n") "" c4items = .ok (newNode "n", "a") ∧
    ∀ e : Err,
      node_content_from_node (fun _ => .ok none) (fun _ => false) (fun a _ => a)
        "p" (newNode "n") "" c4items ≠ .error e := by
  have hx : node_content_from_node (fun _ => .ok none) (fun _ => false) (fun a _ => a)
      "p" (newNode "n") "" c4items = .ok (newNode "n", "a") := rfl
  exact ⟨hx, fun e h => Except.noConfusion (hx.symm.trans h)⟩


theorem capture_empty_only_dslash (path name : String) :
    ∀ v : Obj, handle_control_tag_using path name "" v = .ok "" →
      v = .scalar (.str "//") := by
  intro v hok
  unfold handle_control_tag_using at hok
  rw [if_neg (by simp)] at hok
  cases v with
  | scalar sc =>
    cases sc with
    | str s =>
      obtain ⟨sd⟩ := s
      cases hd : sd with
      | nil => subst hd; simp at hok
      | cons c rest =>
        subst hd
        by_cases hc : c = '/'
        · subst hc
          simp only [if_pos rfl, if_true] at hok
          cases hl : rest.getLast? with
          | none => rw [hl] at hok; simp at hok
          | some lc =>
            rw [hl] at hok
            by_cases hlc : lc = '/'
            · subst hlc
              simp only [if_pos rfl, if_true] at hok
              have hrest0 : rest.dropLast = [] := by
                have := congrArg String.data (Except.ok.inj hok)
                simpa using this
              have hdec := getLast?_decomp rest '/' hl
              rw [hrest0] at hdec
              simp at hdec
              simp [hdec]
            · simp [hlc] at hok
              have h2 : rest = [] := congrArg String.data hok
              rw [h2] at hl
              simp at hl
        · simp only [if_neg hc] at hok
          cases hl : (c :: rest).getLast? with
          | none => simp at hl
          | some lc =>
            rw [hl] at hok
            simp only [] at hok
            by_cases hlc : lc = '/'
            · subst hlc
              simp only [if_pos rfl, if_true] at hok
              have hdl : (c :: rest).dropLast = [] := by
                have := congrArg String.data (Except.ok.inj hok)
                simpa using this
              have hdec := getLast?_decomp (c :: rest) '/' hl
              rw [hdl] at hdec
              simp at hdec
              exact absurd hdec.1 hc
            · simp [hlc] at hok
              have h2 : c :: rest = [] := congrArg String.data hok
              simp at h2
    | null => simp at hok
    | int n => simp at hok
    | bool b => simp at hok
  | dict es => simp at hok
  | nodes its => cases its <;> simp at hok

/-- C4 (amended): a second `!using` raises the once-per-node `ValueError`
whenever the relocation captured so far is non-empty; the only `!using`
value whose successful capture is the empty string — disarming the guard —
is `"//"`. -/
theorem C4_amended_duplicate_guard (path name : String) :
    (∀ (u : String) (v : Obj), u ≠ "" →
      handle_control_tag_using path name u v =
        .error (.valueError ("!using can be used only once per node! ("
          ++ path ++ ":" ++ name ++ ")"))) ∧
    (∀ v : Obj, handle_control_tag_using path name "" v = .ok "" →
      v = .scalar (.str "//")) ∧
    handle_control_tag_using path name "" (.scalar (.str "//")) = .ok "" := by
  refine ⟨?_, capture_empty_only_dslash path name, rfl⟩
  intro u v h
  unfold handle_control_tag_using
  rw [if_pos h]

theorem C4_amended_duplicate_guard_witness :
    handle_control_tag_using "p" "n" "x" (.scalar (.str "a")) =
      .error (.valueError "!using can be used only once per node! (p:n)") ∧
    handle_control_tag_using "p" "n" "" (.scalar (.str "//")) = .ok "" :=
  ⟨(C4_amended_duplicate_guard "p" "n").1 "x" (.scalar (.str "a")) (by decide),
   (C4_amended_duplicate_guard "p" "n").2.2⟩

theorem loop_error_on_first_failure
    (parseOne : String → Except Err (Option TreeNode))
    (mer : TreeNode → TreeNode → TreeNode) (p d : String) (l2 : List String)
    (herr : parseOne p = .error (.yamlError d))
    (hpat : strHasSub "mapping values are not allowed in this context" d = true) :
    ∀ (l1 : List String) (acc : TreeNode),
      (∀ q ∈ l1, ∃ r, parseOne q = .ok r) →
      create_from_yaml_loop parseOne mer acc (l1 ++ p :: l2) =
        .error (.ioError 2
          ("Invalid multiplex file '" ++ p ++ "': " ++ (d ++ spacingHint)) p) := by
  intro l1
  induction l1 with
  | nil =>
    intro acc _
    simp only [List.nil_append]
    unfold create_from_yaml_loop
    rw [herr]
    simp [hpat, spacingHint]
  | cons q l1t ih =>
    intro acc hok
    obtain ⟨r, hr⟩ := hok q (by simp)
    have hok2 : ∀ q2 ∈ l1t, ∃ r2, parseOne q2 = .ok r2 := fun q2 hq2 =>
      hok q2 (by simp [hq2])
    cases r with
    | none =>
      simp only [List.cons_append]
      unfold create_from_yaml_loop
      rw [hr]
      exact ih acc hok2
    | some t =>
      simp only [List.cons_append]
      unfold create_from_yaml_loop
      rw [hr]
      exact ih (mer acc t) hok2

/-- C7: when the first failing file's parser error message mentions that
mapping values are not allowed in this context, the whole assembly fails
with an `IOError` whose message contains the original parser message, the
appended spacing hint, and the offending file's path — no partial
accumulated tree is returned. -/
theorem C7_known_parser_error_wrapped
    (parseOne : String → Except Err (Option TreeNode))
    (mer : TreeNode → TreeNode → TreeNode)
    (l1 l2 : List String) (p d : String)
    (hok : ∀ q ∈ l1, ∃ r, parseOne q = .ok r)
    (herr : parseOne p = .error (.yamlError d))
    (hpat : strHasSub "mapping values are not allowed in this context" d = true) :
    create_from_yaml parseOne mer (l1 ++ p :: l2) =
      .error (.ioError 2
        ("Invalid multiplex file '" ++ p ++ "': " ++ (d ++ spacingHint)) p) ∧
    strHasSub d ("Invalid multiplex file '" ++ p ++ "': " ++ (d ++ spacingHint)) = true ∧
    strHasSub spacingHint
      ("Invalid multiplex file '" ++ p ++ "': " ++ (d ++ spacingHint)) = true ∧
    strHasSub p ("Invalid multiplex file '" ++ p ++ "': " ++ (d ++ spacingHint)) = true := by
  refine ⟨?_, ?_, ?_, ?_⟩
  · exact loop_error_on_first_failure parseOne mer p d l2 herr hpat l1 (newNode "") hok
  · exact strHasSub_of_parts _ ("Invalid multiplex file '" ++ p ++ "': ") spacingHint _
      (by simp [String.data_append])
  · exact strHasSub_of_parts _ ("Invalid multiplex file '" ++ p ++ "': " ++ d) "" _
      (by simp [String.data_append])
  · exact strHasSub_of_parts _ "Invalid multiplex file '"
      ("': " ++ (d ++ spacingHint)) _ (by simp [String.data_append])

theorem C7_known_parser_error_wrapped_witness :
    create_from_yaml
      (fun q => if q = "b"
        then .error (.yamlError "mapping values are not allowed in this context X")
        else .ok none)
      (fun a _ => a) (["a"] ++ "b" :: []) =
      .error (.ioError 2
        ("Invalid multiplex file 'b': " ++
          ("mapping values are not allowed in this context X" ++ spacingHint)) "b") :=
  (C7_known_parser_error_wrapped
    (fun q => if q = "b"
      then .error (.yamlError "mapping values are not allowed in this context X")
      else .ok none)
    (fun a _ => a) ["a"] [] "b" "mapping values are not allowed in this context X"
    (by intro q hq; simp at hq; subst hq; exact ⟨none, rfl⟩)
    rfl (by decide)).1

/-! ## Plain-mapping assembly support -/

theorem plainScalarEntry_iff (k : KeyObj) (v : Obj) :
    plainScalarEntry (k, v) = true ↔
      (∃ s, k = .str s) ∧ (∃ sc, v = .scalar sc ∧ sc ≠ Scalar.null) := by
  cases k with
  | str s =>
    cases v with
    | scalar sc => cases sc <;> simp [plainScalarEntry]
    | dict es => simp [plainScalarEntry]
    | nodes its => simp [plainScalarEntry]
  | ctrl c =>
    cases v with
    | scalar sc => cases sc <;> simp [plainScalarEntry]
    | dict es => simp [plainScalarEntry]
    | nodes its => simp [plainScalarEntry]

theorem name_addValue (t : TreeNode) (k : String) (v : Obj) :
    (t.addValue k v).name = t.name := by cases t; rfl

theorem value_addValue (t : TreeNode) (k : String) (v : Obj) :
    (t.addValue k v).value = odAssign t.value k v := by cases t; rfl

theorem children_addValue (t : TreeNode) (k : String) (v : Obj) :
    (t.addValue k v).children = t.children := by cases t; rfl

theorem multiplex_addValue (t : TreeNode) (k : String) (v : Obj) :
    (t.addValue k v).multiplex = t.multiplex := by cases t; rfl

theorem ctrl_addValue (t : TreeNode) (k : String) (v : Obj) :
    (t.addValue k v).ctrl = t.ctrl := by cases t; rfl

theorem fonly_addValue (t : TreeNode) (k : String) (v : Obj) :
    (t.addValue k v).fonly = t.fonly := by cases t; rfl

theorem fout_addValue (t : TreeNode) (k : String) (v : Obj) :
    (t.addValue k v).fout = t.fout := by cases t; rfl

/-- On all-plain-scalar entries the dict content loop only writes the
value-store, threading the relocation accumulator unchanged. -/
theorem ncfd_plain_scalars (incl : String → Except Err (Option TreeNode))
    (fs : String → Bool) (mer : TreeNode → TreeNode → TreeNode) (path : String) :
    ∀ (entries : List (KeyObj × Obj)) (node : TreeNode) (u : String),
      entries.all plainScalarEntry = true →
      node_content_from_dict incl fs mer path node u entries =
        .ok (entries.foldl (fun nd kv => nd.addValue (keyText kv.1) kv.2) node, u) := by
  intro entries
  induction entries with
  | nil => intro node u _; rfl
  | cons kv rest ih =>
    intro node u hall
    obtain ⟨k, v⟩ := kv
    rw [List.all_cons] at hall
    have h1 := (Bool.and_eq_true _ _).mp hall
    obtain ⟨⟨s, hk⟩, ⟨sc, hv, hsc⟩⟩ := (plainScalarEntry_iff k v).mp h1.1
    subst hk
    subst hv
    cases sc with
    | null => exact absurd rfl hsc
    | str s2 =>
      simp only [node_content_from_dict]
      rw [ih (node.addValue s (.scalar (.str s2))) u h1.2]
      simp [keyText]
    | int n =>
      simp only [node_content_from_dict]
      rw [ih (node.addValue s (.scalar (.int n))) u h1.2]
      simp [keyText]
    | bool b =>
      simp only [node_content_from_dict]
      rw [ih (node.addValue s (.scalar (.bool b))) u h1.2]
      simp [keyText]

theorem foldl_addValue_fields (entries : List (KeyObj × Obj)) :
    ∀ node : TreeNode,
      entries.foldl (fun nd kv => nd.addValue (keyText kv.1) kv.2) node =
        .mk node.name
          (entries.foldl (fun st kv => odAssign st (keyText kv.1) kv.2) node.value)
          node.children node.multiplex node.ctrl node.fonly node.fout := by
  induction entries with
  | nil => intro node; cases node; rfl
  | cons kv rest ih =>
    intro node
    rw [List.foldl_cons, List.foldl_cons, ih (node.addValue (keyText kv.1) kv.2)]
    cases node
    rfl

theorem odAssign_append (st : List (String × Obj)) (k : String) (v : Obj)
    (h : ∀ kv ∈ st, kv.1 ≠ k) : odAssign st k v = st ++ [(k, v)] := by
  unfold odAssign
  rw [if_neg]
  simp only [List.any_eq_true, not_exists, not_and]
  intro kv hkv
  simp [h kv hkv]

theorem odFold_eq_append (l : List (String × Obj)) :
    ∀ st : List (String × Obj),
      (∀ kv ∈ l, ∀ kv2 ∈ st, kv2.1 ≠ kv.1) →
      List.Pairwise (fun a b => a.1 ≠ b.1) l →
      l.foldl (fun acc kv => odAssign acc kv.1 kv.2) st = st ++ l := by
  induction l with
  | nil => intro st _ _; simp
  | cons kv rest ih =>
    intro st hst hp
    obtain ⟨k, v⟩ := kv
    rw [List.foldl_cons, odAssign_append st k v (fun kv2 hkv2 =>
      hst (k, v) (by simp) kv2 hkv2)]
    rw [List.pairwise_cons] at hp
    rw [ih (st ++ [(k, v)]) ?_ hp.2]
    · simp
    · intro kv1 hkv1 kv2 hkv2
      rw [List.mem_append] at hkv2
      rcases hkv2 with h2 | h2
      · exact hst kv1 (by simp [hkv1]) kv2 h2
      · simp at h2
        subst h2
        exact hp.1 kv1 hkv1

theorem odAssignK_all_plain (l : List (KeyObj × Obj)) (k : KeyObj) (v : Obj)
    (hl : l.all plainScalarEntry = true) (hkv : plainScalarEntry (k, v) = true) :
    (odAssignK l k v).all plainScalarEntry = true := by
  rw [List.all_eq_true] at hl
  rw [List.all_eq_true]
  unfold odAssignK
  split
  · intro kv hkv2
    rw [List.mem_map] at hkv2
    obtain ⟨kv0, hkv0, hf⟩ := hkv2
    obtain ⟨a, b⟩ := kv0
    have hab := hl (a, b) hkv0
    obtain ⟨⟨s, hk⟩, _⟩ := (plainScalarEntry_iff a b).mp hab
    obtain ⟨_, ⟨sc, hv, hsc⟩⟩ := (plainScalarEntry_iff k v).mp hkv
    by_cases he : keyEqPy a k
    · rw [if_pos he] at hf
      subst hf
      exact (plainScalarEntry_iff a v).mpr ⟨⟨s, hk⟩, ⟨sc, hv, hsc⟩⟩
    · rw [if_neg he] at hf
      subst hf
      exact hab
  · intro kv hkv2
    rw [List.mem_append] at hkv2
    rcases hkv2 with h2 | h2
    · exact hl kv h2
    · simp at h2
      subst h2
      exact hkv

theorem odAssignK_pairwise (l : List (KeyObj × Obj)) (k : KeyObj) (v : Obj)
    (hp : List.Pairwise (fun a b => keyEqPy a.1 b.1 = false) l) :
    List.Pairwise (fun a b => keyEqPy a.1 b.1 = false) (odAssignK l k v) := by
  unfold odAssignK
  split
  · rw [List.pairwise_map]
    refine hp.imp ?_
    intro a b hab
    have hfa : ((if keyEqPy a.1 k then (a.1, v) else a) : KeyObj × Obj).1 = a.1 := by
      split <;> rfl
    have hfb : ((if keyEqPy b.1 k then (b.1, v) else b) : KeyObj × Obj).1 = b.1 := by
      split <;> rfl
    rw [hfa, hfb]
    exact hab
  · next hany =>
    rw [List.pairwise_append]
    refine ⟨hp, by simp, ?_⟩
    intro a ha b hb
    simp at hb
    subst hb
    have : l.any (fun kv => keyEqPy kv.1 k) = false := by
      rw [Bool.not_eq_true] at hany
      exact hany
    rw [List.any_eq_false] at this
    have h2 := this a ha
    simp at h2
    exact h2

theorem foldl_odAssignK_all (pairs : List (KeyObj × Obj)) :
    ∀ init : List (KeyObj × Obj), init.all plainScalarEntry = true →
      pairs.all plainScalarEntry = true →
      (pairs.foldl (fun acc kv => odAssignK acc kv.1 kv.2) init).all
        plainScalarEntry = true := by
  induction pairs with
  | nil => intro init h _; simpa using h
  | cons kv rest ih =>
    intro init hinit hall
    rw [List.all_cons] at hall
    have h1 := (Bool.and_eq_true _ _).mp hall
    rw [List.foldl_cons]
    exact ih (odAssignK init kv.1 kv.2)
      (odAssignK_all_plain init kv.1 kv.2 hinit (by
        obtain ⟨a, b⟩ := kv
        exact h1.1)) h1.2

theorem foldl_odAssignK_pairwise (pairs : List (KeyObj × Obj)) :
    ∀ init : List (KeyObj × Obj),
      List.Pairwise (fun a b => keyEqPy a.1 b.1 = false) init →
      List.Pairwise (fun a b => keyEqPy a.1 b.1 = false)
        (pairs.foldl (fun acc kv => odAssignK acc kv.1 kv.2) init) := by
  induction pairs with
  | nil => intro init h; simpa using h
  | cons kv rest ih =>
    intro init hinit
    rw [List.foldl_cons]
    exact ih (odAssignK init kv.1 kv.2) (odAssignK_pairwise init kv.1 kv.2 hinit)

theorem odOfPairs_all_plain (pairs : List (KeyObj × Obj))
    (h : pairs.all plainScalarEntry = true) :
    (odOfPairs pairs).all plainScalarEntry = true :=
  foldl_odAssignK_all pairs [] rfl h

theorem odOfPairs_pairwise (pairs : List (KeyObj × Obj)) :
    List.Pairwise (fun a b => keyEqPy a.1 b.1 = false) (odOfPairs pairs) :=
  foldl_odAssignK_pairwise pairs [] (by simp)

theorem pairwise_stringStore (l : List (KeyObj × Obj))
    (hall : l.all plainScalarEntry = true)
    (hp : List.Pairwise (fun a b => keyEqPy a.1 b.1 = false) l) :
    List.Pairwise (fun a b => a.1 ≠ b.1) (stringStore l) := by
  unfold stringStore
  rw [List.pairwise_map]
  rw [List.all_eq_true] at hall
  refine hp.imp_of_mem ?_
  intro a b ha hb hab
  obtain ⟨⟨s1, hk1⟩, _⟩ := (plainScalarEntry_iff a.1 a.2).mp (hall a ha)
  obtain ⟨⟨s2, hk2⟩, _⟩ := (plainScalarEntry_iff b.1 b.2).mp (hall b hb)
  rw [hk1, hk2] at hab ⊢
  simp [keyEqPy] at hab
  simp [keyText]
  exact hab

theorem odAssignK_ne_nil (l : List (KeyObj × Obj)) (k : KeyObj) (v : Obj) :
    odAssignK l k v ≠ [] := by
  unfold odAssignK
  split
  · next hany =>
    intro hmap
    rw [List.map_eq_nil_iff] at hmap
    subst hmap
    simp at hany
  · simp

theorem foldl_odAssignK_ne_nil (pairs : List (KeyObj × Obj)) :
    ∀ init : List (KeyObj × Obj), init ≠ [] →
      pairs.foldl (fun acc kv => odAssignK acc kv.1 kv.2) init ≠ [] := by
  induction pairs with
  | nil => intro init h; simpa using h
  | cons kv rest ih =>
    intro init _
    rw [List.foldl_cons]
    exact ih (odAssignK init kv.1 kv.2) (odAssignK_ne_nil init kv.1 kv.2)

theorem odOfPairs_ne_nil (kv : KeyObj × Obj) (pairs : List (KeyObj × Obj)) :
    odOfPairs (kv :: pairs) ≠ [] := by
  unfold odOfPairs
  rw [List.foldl_cons]
  exact foldl_odAssignK_ne_nil pairs (odAssignK [] kv.1 kv.2)
    (odAssignK_ne_nil [] kv.1 kv.2)

/-- C5 fails as stated: `{a: null}` is a plain mapping (no directive key, no
structural value), yet assembly turns the null-valued key into a child node
and leaves the value-store empty. -/
theorem C5_counterexample :
    looksTrigger [(.str "a", .scalar .null)] = false ∧
    mapping_to_tree_loader (fun _ => .ok none) (fun _ => false) (fun a _ => a) "p"
      [(.str "a", .scalar .null)] false = .ok (.dict [(.str "a", .scalar .null)]) ∧
    tree_node_from_values (fun _ => .ok none) (fun _ => false) (fun a _ => a) "p" ""
      (.dict [(.str "a", .scalar .null)]) =
      .ok (.mk "" [] [.mk "a" [] [] false [] [] []] false [] [] []) ∧
    (TreeNode.mk "" [] [.mk "a" [] [] false [] [] []] false [] [] []).children ≠ [] ∧
    (TreeNode.mk "" [] [.mk "a" [] [] false [] [] []] false [] [] []).value = [] :=
  ⟨rfl, rfl, rfl, by simp [TreeNode.children], rfl⟩

/-- C5 (amended): the loader returns a mapping as a plain ordered mapping if
and only if no key is a directive and no value is structural (a single
trigger flips the whole mapping to the structural form); a plain mapping
all of whose values are non-null scalars assembles to a node with an empty
child list, no directives, no filters, multiplex off, and a value-store
equal to the ordered mapping (order preserved, duplicate keys collapsed
onto their first position by the ordered-dict construction); null and
nested-mapping values instead become child nodes. -/
theorem C5_amended_plain_mapping (incl : String → Except Err (Option TreeNode))
    (fs : String → Bool) (mer : TreeNode → TreeNode → TreeNode)
    (path name : String) (pairs : List (KeyObj × Obj)) :
    (looksTrigger pairs = false ↔
      ∃ d, mapping_to_tree_loader incl fs mer path pairs false = .ok (.dict d)) ∧
    (looksTrigger pairs = false → pairs.all plainScalarEntry = true →
      mapping_to_tree_loader incl fs mer path pairs false =
        .ok (.dict (odOfPairs pairs)) ∧
      tree_node_from_values incl fs mer path name (.dict (odOfPairs pairs)) =
        .ok (.mk name (stringStore (odOfPairs pairs)) [] false [] [] [])) := by
  constructor
  · constructor
    · intro h
      exact ⟨odOfPairs pairs, by simp [mapping_to_tree_loader, h]⟩
    · rintro ⟨d, hd⟩
      by_contra hcon
      rw [Bool.not_eq_false] at hcon
      unfold mapping_to_tree_loader at hd
      rw [hcon] at hd
      simp only [Bool.or_true, Bool.not_true, Bool.false_eq_true, if_false] at hd
      cases hli : loaderItems incl fs mer path pairs with
      | error e => rw [hli] at hd; simp at hd
      | ok items => rw [hli] at hd; simp at hd
  · intro ht hall
    refine ⟨by simp [mapping_to_tree_loader, ht], ?_⟩
    have hallP : (odOfPairs pairs).all plainScalarEntry = true :=
      odOfPairs_all_plain pairs hall
    cases pairs with
    | nil => rfl
    | cons kv rest =>
      have hne : odOfPairs (kv :: rest) ≠ [] := odOfPairs_ne_nil kv rest
      have hfalsy : (Obj.dict (odOfPairs (kv :: rest))).falsy = false := by
        cases hP : odOfPairs (kv :: rest) with
        | nil => exact absurd hP hne
        | cons a t => simp [Obj.falsy, hP]
      have hfold : (odOfPairs (kv :: rest)).foldl
          (fun nd kv2 => nd.addValue (keyText kv2.1) kv2.2) (newNode name) =
          .mk name (stringStore (odOfPairs (kv :: rest))) [] false [] [] [] := by
        rw [foldl_addValue_fields]
        have hmap : (odOfPairs (kv :: rest)).foldl
            (fun st kv2 => odAssign st (keyText kv2.1) kv2.2) (newNode name).value =
            (stringStore (odOfPairs (kv :: rest))).foldl
              (fun st kv2 => odAssign st kv2.1 kv2.2) [] := by
          rw [stringStore, List.foldl_map]
          rfl
        rw [hmap, odFold_eq_append _ [] (by simp)
          (pairwise_stringStore _ hallP (odOfPairs_pairwise (kv :: rest)))]
        simp [newNode, TreeNode.name, TreeNode.children, TreeNode.multiplex,
          TreeNode.ctrl, TreeNode.fonly, TreeNode.fout]
      simp only [tree_node_from_values, hfalsy, Bool.false_eq_true, if_false]
      rw [ncfd_plain_scalars incl fs mer path (odOfPairs (kv :: rest))
        (newNode name) "" hallP]
      simp [hfold]

theorem C5_amended_plain_mapping_witness :
    mapping_to_tree_loader (fun _ => .ok none) (fun _ => false) (fun a _ => a) "p"
      [(.str "a", .scalar (.int 1)), (.str "b", .scalar (.str "v"))] false =
      .ok (.dict [(.str "a", .scalar (.int 1)), (.str "b", .scalar (.str "v"))]) ∧
    tree_node_from_values (fun _ => .ok none) (fun _ => false) (fun a _ => a) "p" ""
      (.dict [(.str "a", .scalar (.int 1)), (.str "b", .scalar (.str "v"))]) =
      .ok (.mk "" [("a", .scalar (.int 1)), ("b", .scalar (.str "v"))] [] false [] [] []) :=
  (C5_amended_plain_mapping (fun _ => .ok none) (fun _ => false) (fun a _ => a) "p" ""
    [(.str "a", .scalar (.int 1)), (.str "b", .scalar (.str "v"))]).2 rfl rfl
